import Mathlib

/-!
Verification of the InstaxBLE path-watcher program.

The development shallowly embeds the two source files:

* `helper-functions.py` — `crop_and_resize_image(target_x, target_y, image_bytes)`,
  the aspect-ratio-preserving crop-and-resize transform.  Its numeric core
  (aspect ratios, branch selection, crop-rectangle arithmetic) is embedded
  with faithful IEEE-754 binary64 semantics: every Python float value is
  represented by the exact rational it denotes, and each float-producing
  operation (int-to-float conversion, `int / int` true division, float
  multiplication, division and addition — all correctly rounded in
  binary64) applies `fl`, rounding the exact rational result of its
  operands to 53 significand bits, nearest, ties to even.  Python's
  `int()` is truncation toward zero of the float's exact value.  Overflow
  and subnormal underflow are not modelled; they cannot arise from the
  dimension ratios this program computes.

* `instaxMultiPrint.py` — `main(args)`, the polling watcher: argument
  handling, path resolution, archive-directory setup, the per-poll pipeline
  (list, stat, stable sort by mtime, extension filter, claim probe,
  collision-free move into `printed/`), and the exit-status discipline.
  Filesystem observations (listing results, stat success, lock state, move
  success) are inputs to the embedded functions; the embedding computes the
  decisions and the per-file event trace that the source code produces from
  those observations.
-/

namespace Instax

/-- Python `int()` applied to an exact rational value: truncation toward
zero (floor for nonnegative values, ceiling for negative ones). -/
def pyInt (q : ℚ) : ℤ := if 0 ≤ q then ⌊q⌋ else ⌈q⌉

/-- The four-tuple `(left, top, right, bottom)` that
`crop_and_resize_image` passes to `image.crop` (helper-functions.py
lines 40 and 48).  The source computes these with Python float division;
they are embedded as exact rationals. -/
structure CropBox where
  left : ℚ
  top : ℚ
  right : ℚ
  bottom : ℚ
  deriving DecidableEq, Repr

/-- Round a rational to the nearest integer, ties to even: the rounding
rule of IEEE-754 binary64 arithmetic, at integer granularity. -/
def roundHalfEven (q : ℚ) : ℤ :=
  if q - ⌊q⌋ < 1 / 2 then ⌊q⌋
  else if 1 / 2 < q - ⌊q⌋ then ⌊q⌋ + 1
  else if ⌊q⌋ % 2 = 0 then ⌊q⌋ else ⌊q⌋ + 1

/-- Round a rational to the grid of spacing `2 ^ e`, nearest, ties to even. -/
def roundAt (q : ℚ) (e : ℤ) : ℚ :=
  (roundHalfEven (q / 2 ^ e) : ℚ) * 2 ^ e

/-- Binary64 rounding of a positive rational: round to 53 significand
bits, i.e. to the grid of spacing `2 ^ (⌊log₂ q⌋ - 52)`. -/
def flPos (q : ℚ) : ℚ := roundAt q (Int.log 2 q - 52)

/-- The binary64 (Python float) value of an exact rational: IEEE-754
round-to-nearest, ties-to-even, at 53 significand bits.  Python's
int-to-float conversion, `int / int` true division and the float
arithmetic operators are all correctly rounded, so each of them is `fl`
of the exact rational result on the operands' exact values.  Overflow
and subnormal underflow (magnitudes beyond roughly `2 ^ 1024` or below
`2 ^ (-1022)`) are outside the model; the dimension ratios this program
computes never reach them. -/
def fl (q : ℚ) : ℚ :=
  if q = 0 then 0
  else if 0 < q then flPos q
  else -flPos (-q)

/-- `target_aspect = target_x / target_y` (helper-functions.py line 27):
Python true division of two ints, a correctly rounded binary64 result. -/
def target_aspect (target_x target_y : ℕ) : ℚ := fl ((target_x : ℚ) / (target_y : ℚ))

/-- `current_aspect = image.width / image.height` (helper-functions.py
line 30), Python true division of two ints. -/
def current_aspect (W H : ℕ) : ℚ := fl ((W : ℚ) / (H : ℚ))

/-- Whether `crop_and_resize_image` takes the width-narrowing branch
`current_aspect > target_aspect` (helper-functions.py line 33), an exact
comparison of the two float values; `false` means the height-narrowing
`else` branch (line 41). -/
def widerBranch (target_x target_y W H : ℕ) : Bool :=
  decide (current_aspect W H > target_aspect target_x target_y)

/-- `new_width = int(target_aspect * image.height)` (helper-functions.py
line 35): the int `image.height` is converted to float, the float product
is correctly rounded, and `int()` truncates it toward zero. -/
def new_width (target_x target_y H : ℕ) : ℤ :=
  pyInt (fl (target_aspect target_x target_y * fl (H : ℚ)))

/-- `new_height = int(image.width / target_aspect)` (helper-functions.py
line 43): the int `image.width` is converted to float, the float quotient
is correctly rounded, and `int()` truncates it toward zero. -/
def new_height (target_x target_y W : ℕ) : ℤ :=
  pyInt (fl (fl (W : ℚ) / target_aspect target_x target_y))

/-- The crop rectangle computed by `crop_and_resize_image`
(helper-functions.py lines 33-48) for a source image of width `W` and
height `H` and a target of `target_x × target_y`.  `left`/`top` come from
an int-by-int true division (one correctly rounded float operation);
`right`/`bottom` add the int span to that float (int-to-float conversion
then one correctly rounded addition); the remaining fields are Python
ints (`0`, `image.width`, `image.height`), exact. -/
def crop_box (target_x target_y W H : ℕ) : CropBox :=
  if current_aspect W H > target_aspect target_x target_y then
    { left := fl (((W : ℚ) - (new_width target_x target_y H : ℚ)) / 2)
      top := 0
      right := fl (fl (((W : ℚ) - (new_width target_x target_y H : ℚ)) / 2)
        + fl (new_width target_x target_y H : ℚ))
      bottom := (H : ℚ) }
  else
    { left := 0
      top := fl (((H : ℚ) - (new_height target_x target_y W : ℚ)) / 2)
      right := (W : ℚ)
      bottom := fl (fl (((H : ℚ) - (new_height target_x target_y W : ℚ)) / 2)
        + fl (new_height target_x target_y W : ℚ)) }

/-- The crop rectangle as the specification's idealized algorithm
prescribes it (spec section 4.2, steps 2-4): aspect ratios as exact
real-valued quotients and the spans floored exactly.  This second,
clearly named definition follows the spec's words; the theorems compare
it with `crop_box`, which follows the source's float arithmetic. -/
def crop_box_spec (target_x target_y W H : ℕ) : CropBox :=
  if (W : ℚ) / H > (target_x : ℚ) / target_y then
    { left := ((W : ℚ) - (⌊(target_x : ℚ) / target_y * H⌋ : ℚ)) / 2
      top := 0
      right := ((W : ℚ) - (⌊(target_x : ℚ) / target_y * H⌋ : ℚ)) / 2
        + (⌊(target_x : ℚ) / target_y * H⌋ : ℚ)
      bottom := (H : ℚ) }
  else
    { left := 0
      top := ((H : ℚ) - (⌊(W : ℚ) / ((target_x : ℚ) / target_y)⌋ : ℚ)) / 2
      right := (W : ℚ)
      bottom := ((H : ℚ) - (⌊(W : ℚ) / ((target_x : ℚ) / target_y)⌋ : ℚ)) / 2
        + (⌊(W : ℚ) / ((target_x : ℚ) / target_y)⌋ : ℚ) }

/-- Pixel dimensions of a decoded image. -/
structure ImageDims where
  width : ℕ
  height : ℕ
  deriving DecidableEq, Repr

/-- Dimension semantics of `cropped_image.resize((target_x, target_y))`
(helper-functions.py line 51): the imaging library resamples its input to
exactly the requested size, whatever the input dimensions were. -/
def resizeDims (input : ImageDims) (target_x target_y : ℕ) : ImageDims :=
  { width := target_x, height := target_y }

/-- Dimension-level embedding of `crop_and_resize_image`
(helper-functions.py lines 24-56) on a decoded source of dimensions
`W × H`.  `cropSem` is the imaging library's dimension semantics for
extracting the sub-region described by a `CropBox`; the theorems below
hold for every such semantics, so no assumption is made about how the
library coerces non-integer box coordinates. -/
def crop_and_resize_dims (cropSem : CropBox → ImageDims)
    (target_x target_y W H : ℕ) : ImageDims :=
  resizeDims (cropSem (crop_box target_x target_y W H)) target_x target_y

/-- ASCII lower-casing of one character, the effect of Python's
`str.lower()` on the path characters involved: `A`-`Z` (codes 65-90) map
to `a`-`z`, everything else is unchanged. -/
def lowerChar (c : Char) : Char :=
  if 65 ≤ c.toNat ∧ c.toNat ≤ 90 then Char.ofNat (c.toNat + 32) else c

/-- The character sequence of `f.lower()` for a path string `f`. -/
def lowerStr (s : String) : List Char := s.data.map lowerChar

/-- `IMAGE_EXTENSIONS` (instaxMultiPrint.py line 115). -/
def IMAGE_EXTENSIONS : List String :=
  [".png", ".jpg", ".jpeg", ".gif", ".bmp", ".tiff", ".webp"]

/-- The list-comprehension test `f.lower().endswith(IMAGE_EXTENSIONS)`
(instaxMultiPrint.py line 144): the lower-cased path ends with one of the
allow-listed extensions. -/
def isImagePath (p : String) : Bool :=
  IMAGE_EXTENSIONS.any (fun e => e.data.isSuffixOf (lowerStr p))

/-- Outcome of the rename-to-self claim probe `os.rename(file_path,
file_path)` (instaxMultiPrint.py lines 154-165): `available` means the
rename succeeded, `locked` a `PermissionError`, `vanished` a
`FileNotFoundError`, `osError` any other `OSError`. -/
inductive ClaimOutcome
  | available
  | locked
  | vanished
  | osError
  deriving DecidableEq, Repr

/-- Outcome of `shutil.move(file_path, dest_path)` (instaxMultiPrint.py
lines 183-189): success, or any exception. -/
inductive MoveOutcome
  | ok
  | fail
  deriving DecidableEq, Repr

/-- One directory entry as the poll observes it: its full path
(`os.path.join(target_dir, f)`, line 124), whether `os.path.isfile`
holds (line 127), whether `os.path.getmtime` succeeds (lines 128-132),
the modification time it returns, and the outcomes the filesystem would
give for the claim probe and the move of this entry in this iteration. -/
structure FileObs where
  path : String
  isFile : Bool
  statOk : Bool
  mtime : ℕ
  claim : ClaimOutcome
  move : MoveOutcome
  deriving DecidableEq, Repr

/-- Result of `os.listdir(target_dir)` for one poll (instaxMultiPrint.py
lines 122-137): either the listing raises, or it yields the entries. -/
inductive ListObs
  | err
  | ok (entries : List FileObs)
  deriving DecidableEq, Repr

/-- The `files_with_mtime` list (instaxMultiPrint.py lines 121-132): the
entries that are regular files and whose stat succeeded; a stat failure
hits the inner `continue` and drops only that entry. -/
def files_with_mtime (entries : List FileObs) : List FileObs :=
  entries.filter (fun f => f.isFile && f.statOk)

/-- The sort key comparison behind `files_with_mtime.sort(key=lambda x:
x[1])` (instaxMultiPrint.py line 140). -/
def mtimeLe (a b : FileObs) : Bool := decide (a.mtime ≤ b.mtime)

/-- The `sorted_files` list (instaxMultiPrint.py lines 140-141): the stat
survivors sorted ascending by modification time.  Python's `list.sort` is
a stable sort, embedded as the stable `List.mergeSort`. -/
def sorted_files (entries : List FileObs) : List FileObs :=
  (files_with_mtime entries).mergeSort mtimeLe

/-- The `image_files` list (instaxMultiPrint.py line 144): the sorted
survivors whose lower-cased path ends with an allow-listed extension. -/
def image_files (entries : List FileObs) : List FileObs :=
  (sorted_files entries).filter (fun f => isImagePath f.path)

/-- Per-file event trace vocabulary.  The constructors cover both what
the loop body actually does (skip reasons, the move into `printed/` and
its failure) and the hand-off steps the specification describes
(reading the bytes, invoking the Transformer, submitting to the printer,
moving to the error archive), so that claims about the latter are
statable against the embedded code. -/
inductive FileEvent
  | skippedLocked
  | skippedVanished
  | skippedOsError
  | readBytes
  | transformed
  | sentToPrinter
  | movedPrinted
  | movedError
  | moveFailedLeftInPlace
  deriving DecidableEq, Repr

/-- The claim-probe block (instaxMultiPrint.py lines 152-165): the final
value of the `in_use` flag together with the skip events logged. -/
def claimProbe (f : FileObs) : Bool × List FileEvent :=
  match f.claim with
  | ClaimOutcome.available => (false, [])
  | ClaimOutcome.locked => (true, [FileEvent.skippedLocked])
  | ClaimOutcome.vanished => (true, [FileEvent.skippedVanished])
  | ClaimOutcome.osError => (true, [FileEvent.skippedOsError])

/-- The move block (instaxMultiPrint.py lines 182-189): on success the
file lands in `printed/`; on any exception it is logged and the file is
left in place for this iteration. -/
def moveStep (f : FileObs) : List FileEvent :=
  match f.move with
  | MoveOutcome.ok => [FileEvent.movedPrinted]
  | MoveOutcome.fail => [FileEvent.moveFailedLeftInPlace]

/-- The whole per-file body of the `for file_path in image_files` loop
(instaxMultiPrint.py lines 150-192): a vanished file hits `continue`; a
file whose probe left `in_use` set is skipped; an available file goes
straight to the move into `printed/`. -/
def processFile (f : FileObs) : List FileEvent :=
  if f.claim = ClaimOutcome.vanished then (claimProbe f).2
  else if (claimProbe f).1 then (claimProbe f).2
  else (claimProbe f).2 ++ moveStep f

/-- Result of one iteration of the endless loop (instaxMultiPrint.py
lines 118-196): a listing failure logs, sleeps and retries the whole
poll (`continue`, lines 133-137); otherwise the iteration runs the
per-file bodies and the loop proceeds to the next poll. -/
inductive PollStep
  | retryPoll
  | done (events : List (String × List FileEvent))
  deriving DecidableEq, Repr

/-- One full poll iteration over the observed directory state. -/
def pollIteration (obs : ListObs) : PollStep :=
  match obs with
  | ListObs.err => PollStep.retryPoll
  | ListObs.ok entries =>
      PollStep.done ((image_files entries).map (fun f => (f.path, processFile f)))

/-- A destination file name in one archive directory, for one fixed base
name and extension: `plain` renders as `base ++ ext` (the original
basename) and `suffixed k` renders as `base ++ "_" ++ toString k ++ ext`,
the f-string of instaxMultiPrint.py line 179.  Distinct constructors and
distinct counters render to distinct file names. -/
inductive DestName
  | plain
  | suffixed (k : ℕ)
  deriving DecidableEq, Repr

/-- The `while os.path.exists(dest_path)` scan (instaxMultiPrint.py lines
174-180) from counter value `k` on: the first `suffixed` name from `k`
upward that is not present in the archive directory.  The loop in the
source terminates because the directory is finite; the embedding makes
the same scan structurally recursive on a fuel bound that the caller
chooses large enough (see `resolveDest_not_mem`). -/
def findFreeName (dir : List DestName) (k fuel : ℕ) : DestName :=
  match fuel with
  | 0 => DestName.suffixed k
  | fuel' + 1 =>
      if DestName.suffixed k ∈ dir then findFreeName dir (k + 1) fuel'
      else DestName.suffixed k

/-- The destination-name resolution for one file (instaxMultiPrint.py
lines 172-180): start from the unmodified basename; while the candidate
exists in the archive directory, try `base_1`, `base_2`, ... -/
def resolveDest (dir : List DestName) : DestName :=
  if DestName.plain ∈ dir then findFreeName dir 1 (dir.length + 1)
  else DestName.plain

/-- The archive directory contents after presenting the same base
filename `n` times to the resolver, each result being materialized as an
existing file before the next call; the list is also the sequence of the
`n` resolved destination paths in call order. -/
def archiveSeq : ℕ → List DestName
  | 0 => []
  | n + 1 => archiveSeq n ++ [resolveDest (archiveSeq n)]

/-- The directory contents after the base name and the suffixed names
`_1` ... `_m` have all been materialized. -/
def archiveShape (m : ℕ) : List DestName :=
  DestName.plain :: (List.range' 1 m).map DestName.suffixed

/-- The startup environment of `main` (instaxMultiPrint.py lines 30-111):
the filesystem answers for the given argument path and the outcomes of
the fallible setup steps, plus whether a Ctrl-C interrupt arrives during
the processing loop. -/
structure Env where
  pathExists : Bool
  absOk : Bool
  isDir : Bool
  isFile : Bool
  absPath : String
  parentDir : String
  mkdirsOk : Bool
  connectOk : Bool
  interrupted : Bool
  deriving DecidableEq, Repr

/-- How a run of `main` ends: an exit status (recording whether the
usage message was printed to standard error), or the endless loop
watching `watchDir`, which returns only when interrupted. -/
inductive MainOutcome
  | exited (code : ℕ) (usageShown : Bool)
  | loopsForever (watchDir : String)
  | interruptExit (watchDir : String) (code : ℕ)
  deriving DecidableEq, Repr

/-- Sections 4 and 5 of `main` (instaxMultiPrint.py lines 68-201): archive
directory creation, the print-collaborator connection, then the endless
loop over `targetDir`, which terminates with status 0 exactly on
Ctrl-C (lines 198-201). -/
def mainLoopPhase (env : Env) (targetDir : String) : MainOutcome :=
  if !env.mkdirsOk then MainOutcome.exited 1 false
  else if !env.connectOk then MainOutcome.exited 1 false
  else if env.interrupted then MainOutcome.interruptExit targetDir 0
  else MainOutcome.loopsForever targetDir

/-- The argument-handling, validation and path-resolution phases of
`main` (instaxMultiPrint.py lines 30-64) followed by `mainLoopPhase`:
fewer than two argv entries exits 1 with the usage message; a
non-existent path exits 1; a path that is neither file nor directory
exits 1; a directory argument is watched itself and a file argument is
watched through its parent directory (lines 57-60). -/
def mainRun (args : List String) (env : Env) : MainOutcome :=
  if args.length < 2 then MainOutcome.exited 1 true
  else if !env.pathExists then MainOutcome.exited 1 false
  else if !env.absOk then MainOutcome.exited 1 false
  else if env.isDir then mainLoopPhase env env.absPath
  else if env.isFile then mainLoopPhase env env.parentDir
  else MainOutcome.exited 1 false

/-- A concrete poll observation for C1: an unlocked image file whose
move succeeds. -/
def c1Obs : FileObs :=
  { path := "C:/watch/a.jpg", isFile := true, statOk := true, mtime := 100,
    claim := ClaimOutcome.available, move := MoveOutcome.ok }

/-- A concrete older image file for the C5 witness. -/
def c5older : FileObs :=
  { path := "C:/watch/a.jpg", isFile := true, statOk := true, mtime := 1,
    claim := ClaimOutcome.available, move := MoveOutcome.ok }

/-- A concrete newer image file for the C5 witness. -/
def c5newer : FileObs :=
  { path := "C:/watch/b.png", isFile := true, statOk := true, mtime := 2,
    claim := ClaimOutcome.available, move := MoveOutcome.ok }

/-- A concrete entry whose stat failed, for the C7 witness. -/
def c7badStat : FileObs :=
  { path := "C:/watch/bad.jpg", isFile := true, statOk := false, mtime := 5,
    claim := ClaimOutcome.available, move := MoveOutcome.ok }

/-- A concrete available file whose move fails, for the C7 witness. -/
def c7moveFail : FileObs :=
  { path := "C:/watch/m.png", isFile := true, statOk := true, mtime := 7,
    claim := ClaimOutcome.available, move := MoveOutcome.fail }

/-- A concrete image file for the C9 witness. -/
def c9img : FileObs :=
  { path := "C:/watch/photo.TIFF", isFile := true, statOk := true, mtime := 3,
    claim := ClaimOutcome.available, move := MoveOutcome.ok }

/-- A concrete startup environment for the C8 witness: a directory
argument, successful setup, interrupt during the loop. -/
def c8env : Env :=
  { pathExists := true, absOk := true, isDir := true, isFile := false,
    absPath := "C:/watch", parentDir := "C:/", mkdirsOk := true,
    connectOk := true, interrupted := false }

/-- The C8 witness environment with the interrupt raised. -/
def c8envInt : Env :=
  { pathExists := true, absOk := true, isDir := true, isFile := false,
    absPath := "C:/watch", parentDir := "C:/", mkdirsOk := true,
    connectOk := true, interrupted := true }

/-- A concrete startup environment for the C10 witness: a regular-file
argument. -/
def c10env : Env :=
  { pathExists := true, absOk := true, isDir := false, isFile := true,
    absPath := "C:/watch/a.jpg", parentDir := "C:/watch", mkdirsOk := true,
    connectOk := true, interrupted := false }

theorem pyInt_of_nonneg {q : ℚ} (h : 0 ≤ q) : pyInt q = ⌊q⌋ := by
  simp [pyInt, h]

theorem pyInt_natCast (n : ℕ) : pyInt (n : ℚ) = (n : ℤ) := by
  rw [pyInt_of_nonneg (by positivity)]
  exact Int.floor_natCast n

theorem roundHalfEven_intCast (n : ℤ) : roundHalfEven (n : ℚ) = n := by
  rw [roundHalfEven, Int.floor_intCast]
  norm_num

theorem roundHalfEven_nonneg {q : ℚ} (h : 0 ≤ q) : 0 ≤ roundHalfEven q := by
  have hf : 0 ≤ ⌊q⌋ := Int.floor_nonneg.mpr h
  rw [roundHalfEven]
  split_ifs <;> omega

theorem abs_roundHalfEven_sub_le (q : ℚ) : |(roundHalfEven q : ℚ) - q| ≤ 1 / 2 := by
  have h1 : (⌊q⌋ : ℚ) ≤ q := Int.floor_le q
  have h2 : q < ⌊q⌋ + 1 := Int.lt_floor_add_one q
  rw [roundHalfEven]
  split_ifs with ha hb hc <;> rw [abs_le] <;> push_cast <;>
    constructor <;> linarith

theorem roundAt_eq_self (q : ℚ) (e : ℤ) (n : ℤ) (h : q = (n : ℚ) * 2 ^ e) :
    roundAt q e = q := by
  have hne : (2 : ℚ) ^ e ≠ 0 := zpow_ne_zero e (by norm_num)
  have hdiv : q / 2 ^ e = (n : ℚ) := by
    rw [h, mul_div_assoc, div_self hne, mul_one]
  rw [roundAt, hdiv, roundHalfEven_intCast, ← h]

theorem roundAt_nonneg {q : ℚ} (h : 0 ≤ q) (e : ℤ) : 0 ≤ roundAt q e := by
  have hpow : (0 : ℚ) < 2 ^ e := zpow_pos (by norm_num) e
  have := roundHalfEven_nonneg (div_nonneg h hpow.le)
  rw [roundAt]
  have hcast : (0 : ℚ) ≤ (roundHalfEven (q / 2 ^ e) : ℚ) := by exact_mod_cast this
  exact mul_nonneg hcast hpow.le

theorem abs_roundAt_sub_le (q : ℚ) (e : ℤ) : |roundAt q e - q| ≤ 2 ^ e / 2 := by
  have hpow : (0 : ℚ) < 2 ^ e := zpow_pos (by norm_num) e
  have h1 := abs_roundHalfEven_sub_le (q / 2 ^ e)
  have key : roundAt q e - q = ((roundHalfEven (q / 2 ^ e) : ℚ) - q / 2 ^ e) * 2 ^ e := by
    rw [roundAt, sub_mul, div_mul_cancel₀ _ hpow.ne']
  rw [key, abs_mul, abs_of_pos hpow]
  calc |(roundHalfEven (q / 2 ^ e) : ℚ) - q / 2 ^ e| * 2 ^ e
      ≤ 1 / 2 * 2 ^ e := by
        exact mul_le_mul_of_nonneg_right h1 hpow.le
    _ = 2 ^ e / 2 := by ring

theorem log2_eq_of (q : ℚ) (e : ℤ) (hq : 0 < q)
    (h1 : (2 : ℚ) ^ e ≤ q) (h2 : q < 2 ^ (e + 1)) : Int.log 2 q = e := by
  have hc : ((2 : ℕ) : ℚ) = (2 : ℚ) := by norm_num
  have hL1 : (2 : ℚ) ^ Int.log 2 q ≤ q := by
    have := Int.zpow_log_le_self (show (1:ℕ) < 2 by norm_num) hq
    rwa [hc] at this
  have hL2 : q < 2 ^ (Int.log 2 q + 1) := by
    have := Int.lt_zpow_succ_log_self (show (1:ℕ) < 2 by norm_num) q
    rwa [hc] at this
  have a1 : (2 : ℚ) ^ Int.log 2 q < 2 ^ (e + 1) := lt_of_le_of_lt hL1 h2
  have a2 : (2 : ℚ) ^ e < 2 ^ (Int.log 2 q + 1) := lt_of_le_of_lt h1 hL2
  have b1 : Int.log 2 q < e + 1 := by
    by_contra hcon
    push_neg at hcon
    exact absurd (zpow_le_zpow_right₀ (by norm_num : (1 : ℚ) ≤ 2) hcon) (not_le.mpr a1)
  have b2 : e < Int.log 2 q + 1 := by
    by_contra hcon
    push_neg at hcon
    exact absurd (zpow_le_zpow_right₀ (by norm_num : (1 : ℚ) ≤ 2) hcon) (not_le.mpr a2)
  omega

theorem log2_lt_of_lt (q : ℚ) (k : ℤ) (hq : 0 < q) (h : q < 2 ^ k) :
    Int.log 2 q < k := by
  by_contra hcon
  push_neg at hcon
  have hc : ((2 : ℕ) : ℚ) = (2 : ℚ) := by norm_num
  have hL1 : (2 : ℚ) ^ Int.log 2 q ≤ q := by
    have := Int.zpow_log_le_self (show (1:ℕ) < 2 by norm_num) hq
    rwa [hc] at this
  have : (2 : ℚ) ^ k ≤ 2 ^ Int.log 2 q :=
    zpow_le_zpow_right₀ (by norm_num : (1 : ℚ) ≤ 2) hcon
  linarith

theorem fl_nonneg {q : ℚ} (h : 0 ≤ q) : 0 ≤ fl q := by
  rcases eq_or_lt_of_le h with heq | hpos
  · rw [fl, if_pos heq.symm]
  · rw [fl, if_neg hpos.ne', if_pos hpos, flPos]
    exact roundAt_nonneg hpos.le _

theorem abs_fl_sub_le {q : ℚ} (hq : 0 < q) : |fl q - q| ≤ q / 2 ^ 53 := by
  rw [fl, if_neg hq.ne', if_pos hq, flPos]
  have h1 := abs_roundAt_sub_le q (Int.log 2 q - 52)
  have hc : ((2 : ℕ) : ℚ) = (2 : ℚ) := by norm_num
  have hL : (2 : ℚ) ^ Int.log 2 q ≤ q := by
    have := Int.zpow_log_le_self (show (1:ℕ) < 2 by norm_num) hq
    rwa [hc] at this
  have h4 : (2 : ℚ) ^ (Int.log 2 q - 52) / 2 = 2 ^ Int.log 2 q / 2 ^ (53 : ℕ) := by
    rw [zpow_sub₀ (by norm_num : (2 : ℚ) ≠ 0), div_div]
    congr 1
    rw [show ((2 : ℚ) ^ (52 : ℤ)) = 2 ^ (52 : ℕ) by norm_num]
    norm_num
  have h3 : (2 : ℚ) ^ (Int.log 2 q - 52) / 2 ≤ q / 2 ^ 53 := by
    rw [h4]
    gcongr
  exact le_trans h1 h3

theorem fl_le_two_mul {q : ℚ} (hq : 0 < q) : fl q ≤ 2 * q := by
  have h1 := (abs_le.mp (abs_fl_sub_le hq)).2
  have h2 : q / 2 ^ 53 ≤ q := div_le_self hq.le (by norm_num)
  linarith

theorem half_le_fl {q : ℚ} (hq : 0 < q) : q / 2 ≤ fl q := by
  have h1 := (abs_le.mp (abs_fl_sub_le hq)).1
  have h2 : q / 2 ^ 53 ≤ q / 2 := by gcongr <;> norm_num
  linarith

theorem fl_pos {q : ℚ} (hq : 0 < q) : 0 < fl q :=
  lt_of_lt_of_le (by positivity) (half_le_fl hq)

theorem flPos_dyadic (m : ℤ) (k : ℕ) (hm0 : 0 < m) (hm : m.natAbs < 2 ^ 53) :
    flPos ((m : ℚ) / 2 ^ k) = (m : ℚ) / 2 ^ k := by
  have hmQ0 : (0 : ℚ) < (m : ℚ) := by exact_mod_cast hm0
  have hq : (0 : ℚ) < (m : ℚ) / 2 ^ k := by positivity
  have hmQ : (m : ℚ) < 2 ^ (53 : ℕ) := by
    have h1 : m < 2 ^ 53 := by omega
    exact_mod_cast h1
  have hub : (m : ℚ) / 2 ^ k < 2 ^ ((53 : ℤ) - k) := by
    rw [div_lt_iff (by positivity)]
    have hsplit : (2 : ℚ) ^ ((53 : ℤ) - k) * 2 ^ (k : ℕ) = 2 ^ (53 : ℕ) := by
      rw [show ((2 : ℚ) ^ (k : ℕ)) = 2 ^ ((k : ℕ) : ℤ) by rw [zpow_natCast]]
      rw [← zpow_add₀ (by norm_num : (2 : ℚ) ≠ 0)]
      rw [show (53 : ℤ) - k + k = ((53 : ℕ) : ℤ) by omega]
      rw [zpow_natCast]
    rw [hsplit]
    exact hmQ
  have hLlt : Int.log 2 ((m : ℚ) / 2 ^ k) < 53 - k := log2_lt_of_lt _ _ hq hub
  have hj : (0 : ℤ) ≤ 52 - k - Int.log 2 ((m : ℚ) / 2 ^ k) := by omega
  have hjj : (((52 - (k : ℤ) - Int.log 2 ((m : ℚ) / 2 ^ k)).toNat : ℤ))
      = 52 - k - Int.log 2 ((m : ℚ) / 2 ^ k) := Int.toNat_of_nonneg hj
  rw [flPos]
  refine roundAt_eq_self _ _ (m * 2 ^ (52 - (k : ℤ) - Int.log 2 ((m : ℚ) / 2 ^ k)).toNat) ?_
  push_cast
  rw [show ((2 : ℚ) ^ ((52 - (k : ℤ) - Int.log 2 ((m : ℚ) / 2 ^ k)).toNat))
      = 2 ^ (((52 - (k : ℤ) - Int.log 2 ((m : ℚ) / 2 ^ k)).toNat : ℤ)) by rw [zpow_natCast]]
  rw [hjj, mul_assoc, ← zpow_add₀ (by norm_num : (2 : ℚ) ≠ 0)]
  rw [show 52 - (k : ℤ) - Int.log 2 ((m : ℚ) / 2 ^ k)
      + (Int.log 2 ((m : ℚ) / 2 ^ k) - 52) = -(k : ℤ) by ring]
  rw [zpow_neg, zpow_natCast]
  rw [div_eq_mul_inv]

theorem fl_dyadic (m : ℤ) (k : ℕ) (hm : m.natAbs < 2 ^ 53) :
    fl ((m : ℚ) / 2 ^ k) = (m : ℚ) / 2 ^ k := by
  rcases lt_trichotomy m 0 with hneg | hzero | hpos
  · have hq : (m : ℚ) / 2 ^ k < 0 := by
      apply div_neg_of_neg_of_pos _ (by positivity)
      exact_mod_cast hneg
    rw [fl, if_neg hq.ne, if_neg (not_lt.mpr hq.le)]
    have hflip : -((m : ℚ) / 2 ^ k) = ((-m : ℤ) : ℚ) / 2 ^ k := by
      push_cast
      ring
    rw [hflip, flPos_dyadic (-m) k (by omega) (by simpa using hm)]
    push_cast
    ring
  · subst hzero
    norm_num [fl]
  · have hq : (0 : ℚ) < (m : ℚ) / 2 ^ k := by
      apply div_pos _ (by positivity)
      exact_mod_cast hpos
    rw [fl, if_neg hq.ne', if_pos hq]
    exact flPos_dyadic m k hpos hm

theorem fl_intCast (m : ℤ) (hm : m.natAbs < 2 ^ 53) : fl (m : ℚ) = (m : ℚ) := by
  have := fl_dyadic m 0 hm
  simpa using this

theorem fl_natCast (n : ℕ) (hn : n < 2 ^ 53) : fl (n : ℚ) = (n : ℚ) := by
  have : ((n : ℤ) : ℚ) = (n : ℚ) := by push_cast; rfl
  rw [← this]
  exact fl_intCast n (by simpa using hn)

theorem fl_halfInt (m : ℤ) (hm : m.natAbs < 2 ^ 53) :
    fl ((m : ℚ) / 2) = (m : ℚ) / 2 := by
  have := fl_dyadic m 1 hm
  simpa using this

/-- Claim C2: for every target pair `(w, h)` with `w, h > 0` and every
decodable source image with positive dimensions `(W, H)`, the image in
the Transformer's output buffer has exactly width `w` and height `h`
(the final `resize((target_x, target_y))` fixes the output size, for any
library crop semantics). -/
theorem C2_transformer_output_dims (cropSem : CropBox → ImageDims)
    (w h W H : ℕ) (hw : 0 < w) (hh : 0 < h) (hW : 0 < W) (hH : 0 < H) :
    (crop_and_resize_dims cropSem w h W H).width = w ∧
    (crop_and_resize_dims cropSem w h W H).height = h :=
  ⟨rfl, rfl⟩

/-- Witness for C2 at a concrete input: target 600 × 800, source 1024 × 768. -/
theorem C2_witness :
    (crop_and_resize_dims (fun _ => { width := 0, height := 0 }) 600 800 1024 768).width
        = 600 ∧
    (crop_and_resize_dims (fun _ => { width := 0, height := 0 }) 600 800 1024 768).height
        = 800 :=
  C2_transformer_output_dims (fun _ => { width := 0, height := 0 }) 600 800 1024 768
    (by decide) (by decide) (by decide) (by decide)

/-- Concrete binary64 evaluation: the Python float `7 / 3` is the double
`0x1.2aaaaaaaaaaabp+1`, slightly above the exact ratio. -/
theorem fl_seven_thirds : fl ((7 : ℚ) / 3) = 5254199565265579 / 2251799813685248 := by
  have hq : (0 : ℚ) < 7 / 3 := by norm_num
  have hlog : Int.log 2 ((7 : ℚ) / 3) = 1 :=
    log2_eq_of _ 1 hq (by norm_num) (by norm_num)
  rw [fl, if_neg hq.ne', if_pos hq, flPos, hlog]
  rw [show (1 : ℤ) - 52 = -51 by norm_num, roundAt]
  have h1 : (7 : ℚ) / 3 / 2 ^ (-51 : ℤ) = 15762598695796736 / 3 := by
    rw [zpow_neg]
    norm_num
  rw [h1]
  have hfloor : ⌊(15762598695796736 : ℚ) / 3⌋ = 5254199565265578 := by norm_num
  have h2 : roundHalfEven ((15762598695796736 : ℚ) / 3) = 5254199565265579 := by
    rw [roundHalfEven, hfloor]
    norm_num
  rw [h2, zpow_neg]
  norm_num

/-- Concrete binary64 evaluation: dividing the float `35.0` by the float
`7 / 3` yields the double just below `15`, namely
`14.999999999999998...`. -/
theorem fl_div_near_fifteen :
    fl ((35 : ℚ) / (5254199565265579 / 2251799813685248)) =
      8444249301319679 / 562949953421312 := by
  have hq1 : (35 : ℚ) / (5254199565265579 / 2251799813685248)
      = 78812993478983680 / 5254199565265579 := by
    norm_num
  rw [hq1]
  have hq : (0 : ℚ) < 78812993478983680 / 5254199565265579 := by norm_num
  have hlog : Int.log 2 ((78812993478983680 : ℚ) / 5254199565265579) = 3 :=
    log2_eq_of _ 3 hq (by norm_num) (by norm_num)
  rw [fl, if_neg hq.ne', if_pos hq, flPos, hlog]
  rw [show (3 : ℤ) - 52 = -49 by norm_num, roundAt]
  have h1 : (78812993478983680 : ℚ) / 5254199565265579 / 2 ^ (-49 : ℤ)
      = 44367771007988029052384612188160 / 5254199565265579 := by
    rw [zpow_neg]
    norm_num
  rw [h1]
  have hfloor : ⌊(44367771007988029052384612188160 : ℚ) / 5254199565265579⌋
      = 8444249301319679 := by norm_num
  have h2 : roundHalfEven ((44367771007988029052384612188160 : ℚ) / 5254199565265579)
      = 8444249301319679 := by
    rw [roundHalfEven, hfloor]
    norm_num
  rw [h2, zpow_neg]
  norm_num

theorem target_aspect_7_3 :
    target_aspect 7 3 = 5254199565265579 / 2251799813685248 := by
  rw [target_aspect, show ((7 : ℕ) : ℚ) / ((3 : ℕ) : ℚ) = (7 : ℚ) / 3 by norm_num]
  exact fl_seven_thirds

/-- `new_height` at target 7 × 3, source width 35: the float quotient
`35 / (7 / 3)` is `14.999999999999998`, so `int()` truncates it to 14,
not the exact 15. -/
theorem new_height_7_3_35 : new_height 7 3 35 = 14 := by
  have h35 : fl ((35 : ℕ) : ℚ) = (35 : ℚ) := by
    rw [fl_natCast 35 (by norm_num)]
    norm_num
  rw [new_height, target_aspect_7_3, h35, fl_div_near_fifteen]
  rw [pyInt_of_nonneg (by norm_num)]
  norm_num

/-- Counterexample to claim C3.  At target 7 × 3 and source 35 × 15 the
aspect ratios agree exactly (`35 * 3 = 7 * 15`), yet the float program
computes `new_height = int(35 / (7/3)) = int(14.999999999999998) = 14`,
so the crop rectangle handed to `image.crop` is `(0, 0.5, 35, 14.5)`,
not `(0, 0, 35, 15)`: one pixel row is discarded before the resize. -/
theorem C3_counterexample :
    (35 : ℕ) * 3 = 7 * 15 ∧
    (crop_box 7 3 35 15).top = 1 / 2 ∧
    crop_box 7 3 35 15 ≠ { left := 0, top := 0, right := 35, bottom := 15 } := by
  have hca : current_aspect 35 15 = 5254199565265579 / 2251799813685248 := by
    rw [current_aspect, show ((35 : ℕ) : ℚ) / ((15 : ℕ) : ℚ) = (7 : ℚ) / 3 by norm_num]
    exact fl_seven_thirds
  have hnot : ¬ current_aspect 35 15 > target_aspect 7 3 := by
    rw [hca, target_aspect_7_3]
    exact lt_irrefl _
  have htop : (crop_box 7 3 35 15).top = 1 / 2 := by
    rw [crop_box, if_neg hnot, new_height_7_3_35]
    show fl ((((15 : ℕ) : ℚ) - ((14 : ℤ) : ℚ)) / 2) = 1 / 2
    rw [show (((15 : ℕ) : ℚ) - ((14 : ℤ) : ℚ)) = ((1 : ℤ) : ℚ) by push_cast; norm_num]
    rw [fl_halfInt 1 (by norm_num)]
    norm_num
  refine ⟨by norm_num, htop, ?_⟩
  intro hcontra
  have := congrArg CropBox.top hcontra
  rw [htop] at this
  norm_num at this

/-- Claim C3 as amended: when `W/H` exactly equals `w/h` (integrally,
`W * h = w * H`), the identical exact ratio rounds to the identical
float, so the strict `>` test fails and the height-narrowing `else`
branch is always taken, with `left = 0` and `right = W`; the full
rectangle `(0, 0, W, H)` is what the specification's idealized exact
arithmetic produces (`crop_box_spec`), but the float program's
`new_height` can fall short of `H` by one (see `C3_counterexample`), so
the no-pixel-discarded geometry holds only for the idealized model, not
for every input of the float code. -/
theorem C3_aspect_equality (w h W H : ℕ)
    (hw : 0 < w) (hh : 0 < h) (hW : 0 < W) (hH : 0 < H)
    (hasp : W * h = w * H) :
    widerBranch w h W H = false ∧
    (crop_box w h W H).left = 0 ∧
    (crop_box w h W H).right = (W : ℚ) ∧
    crop_box_spec w h W H =
      { left := 0, top := 0, right := (W : ℚ), bottom := (H : ℚ) } := by
  have hh0 : (h : ℚ) ≠ 0 := by positivity
  have hH0 : (H : ℚ) ≠ 0 := by positivity
  have hw0 : (w : ℚ) ≠ 0 := by positivity
  have hratio : (W : ℚ) / H = (w : ℚ) / h := by
    rw [div_eq_div_iff hH0 hh0]
    exact_mod_cast hasp
  have heq : current_aspect W H = target_aspect w h := by
    rw [current_aspect, target_aspect, hratio]
  have hnot : ¬ current_aspect W H > target_aspect w h := by
    rw [heq]
    exact lt_irrefl _
  have hnotspec : ¬ (W : ℚ) / H > (w : ℚ) / h := by
    rw [hratio]
    exact lt_irrefl _
  refine ⟨by simp [widerBranch, hnot], ?_, ?_, ?_⟩
  · rw [crop_box, if_neg hnot]
  · rw [crop_box, if_neg hnot]
  · have hfloor : ⌊(W : ℚ) / ((w : ℚ) / h)⌋ = (H : ℤ) := by
      have hWexp : (W : ℚ) / ((w : ℚ) / h) = (H : ℚ) := by
        rw [div_div_eq_mul_div, div_eq_iff hw0]
        have hasp2 : W * h = H * w := by rw [Nat.mul_comm H w]; exact hasp
        exact_mod_cast hasp2
      rw [hWexp]
      exact_mod_cast Int.floor_natCast H
    rw [crop_box_spec, if_neg hnotspec, hfloor]
    congr 1 <;> push_cast <;> ring

/-- Witness for the amended C3 at a concrete input: target 4 × 3,
source 8 × 6. -/
theorem C3_witness :
    widerBranch 4 3 8 6 = false ∧
    (crop_box 4 3 8 6).left = 0 ∧
    (crop_box 4 3 8 6).right = ((8 : ℕ) : ℚ) ∧
    crop_box_spec 4 3 8 6 =
      { left := 0, top := 0, right := ((8 : ℕ) : ℚ), bottom := ((6 : ℕ) : ℚ) } :=
  C3_aspect_equality 4 3 8 6 (by norm_num) (by norm_num) (by norm_num) (by norm_num)
    (by norm_num)

theorem target_aspect_1_1 : target_aspect 1 1 = 1 := by
  rw [target_aspect, show ((1 : ℕ) : ℚ) / ((1 : ℕ) : ℚ) = ((1 : ℤ) : ℚ) by norm_num]
  rw [fl_intCast 1 (by norm_num)]
  norm_num

theorem current_aspect_13_8 : current_aspect 13 8 = 13 / 8 := by
  rw [current_aspect,
    show ((13 : ℕ) : ℚ) / ((8 : ℕ) : ℚ) = ((13 : ℤ) : ℚ) / 2 ^ 3 by push_cast; norm_num]
  rw [fl_dyadic 13 3 (by norm_num)]
  push_cast
  norm_num

theorem widerBranch_1_1_13_8 : widerBranch 1 1 13 8 = true := by
  rw [widerBranch, target_aspect_1_1, current_aspect_13_8, decide_eq_true_eq]
  norm_num

theorem new_width_1_1_8 : new_width 1 1 8 = 8 := by
  rw [new_width, target_aspect_1_1]
  have h8 : fl ((8 : ℕ) : ℚ) = (8 : ℚ) := by
    rw [fl_natCast 8 (by norm_num)]
    norm_num
  rw [h8, one_mul, show (8 : ℚ) = ((8 : ℤ) : ℚ) by norm_num, fl_intCast 8 (by norm_num)]
  rw [pyInt_of_nonneg (by norm_num)]
  norm_num

/-- Counterexample to claim C4.  The claim says every non-integer crop
boundary is truncated toward zero (floored) before the sub-region
extraction.  For target 1 × 1 and source 13 × 8 (all the floats involved
are exact) the code takes the width-narrowing branch with
`new_width = 8` and hands the extraction the boundary
`left = (13 - 8) / 2 = 5/2`, which is not an integer and in particular
is not its own floor: the code performs no truncation on the centering
offsets, and likewise `right = 21/2`. -/
theorem C4_counterexample :
    (crop_box 1 1 13 8).left = 5 / 2 ∧
    (crop_box 1 1 13 8).left ≠ ((⌊(crop_box 1 1 13 8).left⌋ : ℤ) : ℚ) ∧
    (crop_box 1 1 13 8).right = 21 / 2 := by
  have hgt : current_aspect 13 8 > target_aspect 1 1 := by
    rw [target_aspect_1_1, current_aspect_13_8]
    norm_num
  have hleft : (crop_box 1 1 13 8).left = 5 / 2 := by
    rw [crop_box, if_pos hgt, new_width_1_1_8]
    show fl ((((13 : ℕ) : ℚ) - ((8 : ℤ) : ℚ)) / 2) = 5 / 2
    rw [show (((13 : ℕ) : ℚ) - ((8 : ℤ) : ℚ)) = ((5 : ℤ) : ℚ) by push_cast; norm_num]
    rw [fl_halfInt 5 (by norm_num)]
    norm_num
  have hright : (crop_box 1 1 13 8).right = 21 / 2 := by
    rw [crop_box, if_pos hgt, new_width_1_1_8]
    show fl (fl ((((13 : ℕ) : ℚ) - ((8 : ℤ) : ℚ)) / 2) + fl (((8 : ℤ) : ℚ))) = 21 / 2
    rw [show (((13 : ℕ) : ℚ) - ((8 : ℤ) : ℚ)) = ((5 : ℤ) : ℚ) by push_cast; norm_num]
    rw [fl_halfInt 5 (by norm_num), fl_intCast 8 (by norm_num)]
    rw [show ((5 : ℤ) : ℚ) / 2 + ((8 : ℤ) : ℚ) = ((21 : ℤ) : ℚ) / 2 by push_cast; norm_num]
    rw [fl_halfInt 21 (by norm_num)]
    push_cast
    norm_num
  refine ⟨hleft, ?_, hright⟩
  rw [hleft]
  norm_num

/-- Claim C4 as amended: the only truncation the code performs is
Python's `int()` on the crop spans, which truncates the correctly
rounded float product/quotient (bracketing conjuncts); the centering
offsets `left`/`top` are the float of half an integer margin, which
binary64 represents exactly for every realistic size (dimensions up to
`2 ^ 20`), so they reach the extraction as the exact unrounded values
`(W − new_width) / 2` resp. `(H − new_height) / 2` — half-integers when
the margin is odd — and `right`/`bottom` are the exact sums of that
offset and the span; no floor is applied to any boundary by this code. -/
theorem C4_boundaries_unrounded (w h W H : ℕ)
    (hw : 0 < w) (hh : 0 < h) (hW : 0 < W) (hH : 0 < H)
    (hwB : w ≤ 2 ^ 20) (hhB : h ≤ 2 ^ 20) (hWB : W ≤ 2 ^ 20) (hHB : H ≤ 2 ^ 20) :
    (widerBranch w h W H = true →
      (new_width w h H : ℚ) ≤ fl (target_aspect w h * fl ((H : ℕ) : ℚ)) ∧
      fl (target_aspect w h * fl ((H : ℕ) : ℚ)) < (new_width w h H : ℚ) + 1 ∧
      (crop_box w h W H).left = (((W : ℕ) : ℚ) - (new_width w h H : ℚ)) / 2 ∧
      (crop_box w h W H).top = 0 ∧
      (crop_box w h W H).right = (crop_box w h W H).left + (new_width w h H : ℚ) ∧
      (crop_box w h W H).bottom = ((H : ℕ) : ℚ)) ∧
    (widerBranch w h W H = false →
      (new_height w h W : ℚ) ≤ fl (fl ((W : ℕ) : ℚ) / target_aspect w h) ∧
      fl (fl ((W : ℕ) : ℚ) / target_aspect w h) < (new_height w h W : ℚ) + 1 ∧
      (crop_box w h W H).left = 0 ∧
      (crop_box w h W H).top = (((H : ℕ) : ℚ) - (new_height w h W : ℚ)) / 2 ∧
      (crop_box w h W H).right = ((W : ℕ) : ℚ) ∧
      (crop_box w h W H).bottom = (crop_box w h W H).top + (new_height w h W : ℚ)) := by
  have hwQ : (0 : ℚ) < (w : ℚ) := by exact_mod_cast hw
  have hhQ : (0 : ℚ) < (h : ℚ) := by exact_mod_cast hh
  have hWQ : (0 : ℚ) < (W : ℚ) := by exact_mod_cast hW
  have hHQ : (0 : ℚ) < (H : ℚ) := by exact_mod_cast hH
  have hwBQ : (w : ℚ) ≤ 2 ^ 20 := by exact_mod_cast hwB
  have hhBQ : (h : ℚ) ≤ 2 ^ 20 := by exact_mod_cast hhB
  have hWBQ : (W : ℚ) ≤ 2 ^ 20 := by exact_mod_cast hWB
  have hHBQ : (H : ℚ) ≤ 2 ^ 20 := by exact_mod_cast hHB
  have hrat_pos : (0 : ℚ) < (w : ℚ) / h := div_pos hwQ hhQ
  have hta_pos : 0 < target_aspect w h := by
    rw [target_aspect]
    exact fl_pos hrat_pos
  have hrat_le : (w : ℚ) / h ≤ 2 ^ 20 := by
    calc (w : ℚ) / h ≤ (w : ℚ) := div_le_self hwQ.le (by exact_mod_cast hh)
      _ ≤ 2 ^ 20 := hwBQ
  have hta_le : target_aspect w h ≤ 2 ^ 21 := by
    rw [target_aspect]
    calc fl ((w : ℚ) / h) ≤ 2 * ((w : ℚ) / h) := fl_le_two_mul hrat_pos
      _ ≤ 2 ^ 21 := by nlinarith [hrat_le]
  have hflH : fl ((H : ℕ) : ℚ) = (H : ℚ) := fl_natCast H (by omega)
  have hflW : fl ((W : ℕ) : ℚ) = (W : ℚ) := fl_natCast W (by omega)
  have hWZ : (0 : ℤ) ≤ (W : ℤ) ∧ (W : ℤ) ≤ 2 ^ 20 := by
    constructor
    · exact_mod_cast Nat.zero_le W
    · exact_mod_cast hWB
  have hHZ : (0 : ℤ) ≤ (H : ℤ) ∧ (H : ℤ) ≤ 2 ^ 20 := by
    constructor
    · exact_mod_cast Nat.zero_le H
    · exact_mod_cast hHB
  constructor
  · intro hb
    have hcond : current_aspect W H > target_aspect w h := by
      simpa [widerBranch] using hb
    have hprod_pos : 0 < target_aspect w h * fl ((H : ℕ) : ℚ) := by
      rw [hflH]
      exact mul_pos hta_pos hHQ
    have hs_nonneg : 0 ≤ fl (target_aspect w h * fl ((H : ℕ) : ℚ)) :=
      fl_nonneg hprod_pos.le
    have hs_le : fl (target_aspect w h * fl ((H : ℕ) : ℚ)) ≤ 2 ^ 42 := by
      calc fl (target_aspect w h * fl ((H : ℕ) : ℚ))
          ≤ 2 * (target_aspect w h * fl ((H : ℕ) : ℚ)) := fl_le_two_mul hprod_pos
        _ ≤ 2 * (2 ^ 21 * 2 ^ 20) := by
            rw [hflH]
            have h1 : target_aspect w h * (H : ℚ) ≤ 2 ^ 21 * 2 ^ 20 :=
              mul_le_mul hta_le hHBQ hHQ.le (by norm_num)
            linarith
        _ ≤ 2 ^ 42 := by norm_num
    have hnw_def : new_width w h H = ⌊fl (target_aspect w h * fl ((H : ℕ) : ℚ))⌋ := by
      rw [new_width, pyInt_of_nonneg hs_nonneg]
    have h1 : (new_width w h H : ℚ) ≤ fl (target_aspect w h * fl ((H : ℕ) : ℚ)) := by
      rw [hnw_def]
      exact Int.floor_le _
    have h2 : fl (target_aspect w h * fl ((H : ℕ) : ℚ)) < (new_width w h H : ℚ) + 1 := by
      rw [hnw_def]
      push_cast
      exact Int.lt_floor_add_one _
    have hnw_nonneg : 0 ≤ new_width w h H := by
      rw [hnw_def]
      exact Int.floor_nonneg.mpr hs_nonneg
    have hnw_le : new_width w h H ≤ 2 ^ 42 := by
      have hq : (new_width w h H : ℚ) ≤ 2 ^ 42 := le_trans h1 hs_le
      exact_mod_cast hq
    have hmargin : (((W : ℕ) : ℚ) - (new_width w h H : ℚ))
        = (((W : ℤ) - new_width w h H : ℤ) : ℚ) := by
      push_cast
      ring
    have hmabs : ((W : ℤ) - new_width w h H).natAbs < 2 ^ 53 := by omega
    have hleft : fl ((((W : ℕ) : ℚ) - (new_width w h H : ℚ)) / 2)
        = (((W : ℕ) : ℚ) - (new_width w h H : ℚ)) / 2 := by
      rw [hmargin]
      exact fl_halfInt _ hmabs
    have hflnw : fl ((new_width w h H : ℤ) : ℚ) = ((new_width w h H : ℤ) : ℚ) :=
      fl_intCast _ (by omega)
    refine ⟨h1, h2, ?_, ?_, ?_, ?_⟩
    · rw [crop_box, if_pos hcond]
      exact hleft
    · rw [crop_box, if_pos hcond]
    · rw [crop_box, if_pos hcond]
      show fl (fl ((((W : ℕ) : ℚ) - (new_width w h H : ℚ)) / 2)
          + fl ((new_width w h H : ℤ) : ℚ))
        = fl ((((W : ℕ) : ℚ) - (new_width w h H : ℚ)) / 2) + (new_width w h H : ℚ)
      rw [hleft, hflnw]
      rw [show (((W : ℕ) : ℚ) - (new_width w h H : ℚ)) / 2 + ((new_width w h H : ℤ) : ℚ)
          = (((W : ℤ) + new_width w h H : ℤ) : ℚ) / 2 by push_cast; ring]
      rw [fl_halfInt _ (by omega : ((W : ℤ) + new_width w h H).natAbs < 2 ^ 53)]
    · rw [crop_box, if_pos hcond]
  · intro hb
    have hcond : ¬ current_aspect W H > target_aspect w h := by
      simpa [widerBranch] using hb
    have hq_pos : 0 < fl ((W : ℕ) : ℚ) / target_aspect w h := by
      rw [hflW]
      exact div_pos hWQ hta_pos
    have hta_ge : ((w : ℚ) / h) / 2 ≤ target_aspect w h := by
      rw [target_aspect]
      exact half_le_fl hrat_pos
    have hden_pos : (0 : ℚ) < ((w : ℚ) / h) / 2 := by positivity
    have hdiv_le : fl ((W : ℕ) : ℚ) / target_aspect w h ≤ 2 ^ 42 := by
      rw [hflW]
      have hstep1 : (W : ℚ) / target_aspect w h ≤ (W : ℚ) / (((w : ℚ) / h) / 2) :=
        div_le_div_of_nonneg_left hWQ.le hden_pos hta_ge
      have hstep2 : (W : ℚ) / (((w : ℚ) / h) / 2) = 2 * (W : ℚ) * h / w := by
        field_simp
        ring
      have hstep3 : 2 * (W : ℚ) * h / w ≤ 2 * (W : ℚ) * h := by
        apply div_le_self (by positivity)
        exact_mod_cast hw
      have hstep4 : 2 * (W : ℚ) * h ≤ 2 ^ 42 := by nlinarith [hWBQ, hhBQ, hWQ, hhQ]
      linarith
    have hs_nonneg : 0 ≤ fl (fl ((W : ℕ) : ℚ) / target_aspect w h) :=
      fl_nonneg hq_pos.le
    have hs_le : fl (fl ((W : ℕ) : ℚ) / target_aspect w h) ≤ 2 ^ 43 := by
      calc fl (fl ((W : ℕ) : ℚ) / target_aspect w h)
          ≤ 2 * (fl ((W : ℕ) : ℚ) / target_aspect w h) := fl_le_two_mul hq_pos
        _ ≤ 2 ^ 43 := by nlinarith [hdiv_le, hq_pos]
    have hnh_def : new_height w h W = ⌊fl (fl ((W : ℕ) : ℚ) / target_aspect w h)⌋ := by
      rw [new_height, pyInt_of_nonneg hs_nonneg]
    have h1 : (new_height w h W : ℚ) ≤ fl (fl ((W : ℕ) : ℚ) / target_aspect w h) := by
      rw [hnh_def]
      exact Int.floor_le _
    have h2 : fl (fl ((W : ℕ) : ℚ) / target_aspect w h) < (new_height w h W : ℚ) + 1 := by
      rw [hnh_def]
      push_cast
      exact Int.lt_floor_add_one _
    have hnh_nonneg : 0 ≤ new_height w h W := by
      rw [hnh_def]
      exact Int.floor_nonneg.mpr hs_nonneg
    have hnh_le : new_height w h W ≤ 2 ^ 43 := by
      have hq : (new_height w h W : ℚ) ≤ 2 ^ 43 := le_trans h1 hs_le
      exact_mod_cast hq
    have hmargin : (((H : ℕ) : ℚ) - (new_height w h W : ℚ))
        = (((H : ℤ) - new_height w h W : ℤ) : ℚ) := by
      push_cast
      ring
    have hmabs : ((H : ℤ) - new_height w h W).natAbs < 2 ^ 53 := by omega
    have htop : fl ((((H : ℕ) : ℚ) - (new_height w h W : ℚ)) / 2)
        = (((H : ℕ) : ℚ) - (new_height w h W : ℚ)) / 2 := by
      rw [hmargin]
      exact fl_halfInt _ hmabs
    have hflnh : fl ((new_height w h W : ℤ) : ℚ) = ((new_height w h W : ℤ) : ℚ) :=
      fl_intCast _ (by omega)
    refine ⟨h1, h2, ?_, ?_, ?_, ?_⟩
    · rw [crop_box, if_neg hcond]
    · rw [crop_box, if_neg hcond]
      exact htop
    · rw [crop_box, if_neg hcond]
    · rw [crop_box, if_neg hcond]
      show fl (fl ((((H : ℕ) : ℚ) - (new_height w h W : ℚ)) / 2)
          + fl ((new_height w h W : ℤ) : ℚ))
        = fl ((((H : ℕ) : ℚ) - (new_height w h W : ℚ)) / 2) + (new_height w h W : ℚ)
      rw [htop, hflnh]
      rw [show (((H : ℕ) : ℚ) - (new_height w h W : ℚ)) / 2 + ((new_height w h W : ℤ) : ℚ)
          = (((H : ℤ) + new_height w h W : ℤ) : ℚ) / 2 by push_cast; ring]
      rw [fl_halfInt _ (by omega : ((H : ℤ) + new_height w h W).natAbs < 2 ^ 53)]

/-- Witness for the amended C4 at the concrete input of the
counterexample: target 1 × 1, source 13 × 8 (width-narrowing branch). -/
theorem C4_witness :
    (new_width 1 1 8 : ℚ) ≤ fl (target_aspect 1 1 * fl ((8 : ℕ) : ℚ)) ∧
    fl (target_aspect 1 1 * fl ((8 : ℕ) : ℚ)) < (new_width 1 1 8 : ℚ) + 1 ∧
    (crop_box 1 1 13 8).left = (((13 : ℕ) : ℚ) - (new_width 1 1 8 : ℚ)) / 2 ∧
    (crop_box 1 1 13 8).top = 0 ∧
    (crop_box 1 1 13 8).right = (crop_box 1 1 13 8).left + (new_width 1 1 8 : ℚ) ∧
    (crop_box 1 1 13 8).bottom = ((8 : ℕ) : ℚ) :=
  (C4_boundaries_unrounded 1 1 13 8 (by norm_num) (by norm_num) (by norm_num) (by norm_num)
    (by norm_num) (by norm_num) (by norm_num) (by norm_num)).1 widerBranch_1_1_13_8
theorem mtimeLe_trans : ∀ a b c : FileObs,
    mtimeLe a b = true → mtimeLe b c = true → mtimeLe a c = true := by
  intro a b c hab hbc
  simp only [mtimeLe, decide_eq_true_eq] at *
  omega

theorem mtimeLe_total : ∀ a b : FileObs, (mtimeLe a b || mtimeLe b a) = true := by
  intro a b
  simp only [mtimeLe, Bool.or_eq_true, decide_eq_true_eq]
  omega

/-- Claim C5: in every poll cycle the candidates are processed in
ascending order of modification time (first conjunct: the processed list
is pairwise nondecreasing in mtime, so of two unlocked image files the
older always comes before the newer), and the stable sort together with
the order-preserving extension filter keeps any correctly ordered pair of
image files — ties in listing order included, since `mtimeLe` holds for
equal mtimes — in their original relative order (second conjunct). -/
theorem C5_processing_order :
    (∀ entries : List FileObs,
      (image_files entries).Pairwise (fun a b => a.mtime ≤ b.mtime)) ∧
    (∀ (entries : List FileObs) (a b : FileObs),
      List.Sublist [a, b] (files_with_mtime entries) → a.mtime ≤ b.mtime →
      isImagePath a.path = true → isImagePath b.path = true →
      List.Sublist [a, b] (image_files entries)) := by
  constructor
  · intro entries
    have hs := @List.sorted_mergeSort FileObs mtimeLe mtimeLe_trans mtimeLe_total
      (files_with_mtime entries)
    have hsub : List.Sublist (image_files entries) (sorted_files entries) := by
      rw [image_files]
      exact List.filter_sublist _
    have hp : List.Pairwise (fun a b => mtimeLe a b = true) (image_files entries) :=
      List.Pairwise.sublist hsub (by rw [sorted_files]; exact hs)
    exact hp.imp (by intro a b hab; simpa [mtimeLe, decide_eq_true_eq] using hab)
  · intro entries a b hsub hab ha hb
    have hpair : List.Pairwise (fun x y => mtimeLe x y = true) [a, b] := by
      refine List.Pairwise.cons ?_ (List.pairwise_singleton _ _)
      intro y hy
      simp only [List.mem_singleton] at hy
      subst hy
      simpa [mtimeLe, decide_eq_true_eq] using hab
    have h1 : List.Sublist [a, b] (sorted_files entries) := by
      rw [sorted_files]
      exact @List.sublist_mergeSort FileObs mtimeLe (files_with_mtime entries)
        mtimeLe_trans mtimeLe_total [a, b] hpair hsub
    have h2 := List.Sublist.filter (fun f => isImagePath f.path) h1
    have h3 : List.filter (fun f => isImagePath f.path) [a, b] = [a, b] := by
      simp [List.filter, ha, hb]
    rw [image_files]
    rw [h3] at h2
    exact h2

/-- Witness for C5 at a concrete input: the older `a.jpg` is kept before
the newer `b.png` in the processing order. -/
theorem C5_witness :
    List.Sublist [c5older, c5newer] (image_files [c5older, c5newer]) :=
  C5_processing_order.2 [c5older, c5newer] c5older c5newer
    (List.Sublist.refl _) (by decide) (by decide) (by decide)

theorem findFreeName_not_mem_of_free (dir : List DestName) :
    ∀ fuel k, (∃ j, k ≤ j ∧ j < k + fuel ∧ DestName.suffixed j ∉ dir) →
      findFreeName dir k fuel ∉ dir := by
  intro fuel
  induction fuel with
  | zero =>
      intro k h
      obtain ⟨j, hkj, hlt, _⟩ := h
      omega
  | succ fuel ih =>
      intro k h
      obtain ⟨j, hkj, hlt, hfree⟩ := h
      rw [findFreeName]
      by_cases hk : DestName.suffixed k ∈ dir
      · rw [if_pos hk]
        apply ih
        refine ⟨j, ?_, by omega, hfree⟩
        rcases Nat.eq_or_lt_of_le hkj with heq | hlt2
        · exfalso
          apply hfree
          rw [← heq]
          exact hk
        · omega
      · rw [if_neg hk]
        exact hk

theorem exists_free_suffix (dir : List DestName) :
    ∃ j, 1 ≤ j ∧ j < 1 + (dir.length + 1) ∧ DestName.suffixed j ∉ dir := by
  by_contra hall
  simp only [not_exists, not_and, not_not] at hall
  have hsubset : (List.range' 1 (dir.length + 1)).map DestName.suffixed ⊆ dir := by
    intro x hx
    simp only [List.mem_map, List.mem_range'_1] at hx
    obtain ⟨j, ⟨h1j, hjlt⟩, rfl⟩ := hx
    exact hall j h1j (by omega)
  have hnodup : ((List.range' 1 (dir.length + 1)).map DestName.suffixed).Nodup := by
    refine List.Nodup.map ?_ (List.nodup_range' 1 (dir.length + 1))
    intro x y hxy
    injection hxy
  have hlen := (List.subperm_of_subset hnodup hsubset).length_le
  simp only [List.length_map, List.length_range'] at hlen
  omega

/-- The resolved destination never names an existing file: the naming
rule never silently overwrites. -/
theorem resolveDest_not_mem (dir : List DestName) : resolveDest dir ∉ dir := by
  rw [resolveDest]
  by_cases h : DestName.plain ∈ dir
  · rw [if_pos h]
    exact findFreeName_not_mem_of_free dir (dir.length + 1) 1 (exists_free_suffix dir)
  · rw [if_neg h]
    exact h

theorem suffixed_mem_archiveShape (m j : ℕ) :
    DestName.suffixed j ∈ archiveShape m ↔ 1 ≤ j ∧ j ≤ m := by
  simp only [archiveShape, List.mem_cons, List.mem_map, List.mem_range'_1]
  constructor
  · intro h
    rcases h with h | ⟨i, ⟨h1, h2⟩, heq⟩
    · exact absurd h (by simp)
    · injection heq with hji
      omega
  · intro ⟨h1, h2⟩
    exact Or.inr ⟨j, ⟨h1, by omega⟩, rfl⟩

theorem findFreeName_archiveShape (m : ℕ) :
    ∀ fuel k, 1 ≤ k → k ≤ m + 1 → m + 1 < k + fuel →
      findFreeName (archiveShape m) k fuel = DestName.suffixed (m + 1) := by
  intro fuel
  induction fuel with
  | zero =>
      intro k _ hk2 hk3
      omega
  | succ fuel ih =>
      intro k hk1 hk2 hk3
      rw [findFreeName]
      by_cases hkm : k ≤ m
      · rw [if_pos ((suffixed_mem_archiveShape m k).mpr ⟨hk1, hkm⟩)]
        exact ih (k + 1) (by omega) (by omega) (by omega)
      · have hk : k = m + 1 := by omega
        rw [if_neg (by rw [suffixed_mem_archiveShape]; omega)]
        rw [hk]

theorem resolveDest_archiveShape (m : ℕ) :
    resolveDest (archiveShape m) = DestName.suffixed (m + 1) := by
  rw [resolveDest, if_pos (by simp [archiveShape])]
  have hlen : (archiveShape m).length = m + 1 := by
    simp [archiveShape, List.length_range']
  rw [hlen]
  exact findFreeName_archiveShape m (m + 2) 1 (by omega) (by omega) (by omega)

theorem archiveSeq_eq_shape : ∀ n : ℕ, 1 ≤ n → archiveSeq n = archiveShape (n - 1) := by
  intro n
  induction n with
  | zero => intro h; omega
  | succ n ih =>
      intro _
      by_cases hn : 1 ≤ n
      · have hstep : archiveSeq (n + 1) =
            archiveShape (n - 1) ++ [resolveDest (archiveShape (n - 1))] := by
          rw [archiveSeq, ih hn]
        rw [hstep, resolveDest_archiveShape]
        have hn1 : n - 1 + 1 = n := by omega
        rw [hn1]
        show DestName.plain :: (List.range' 1 (n - 1)).map DestName.suffixed
            ++ [DestName.suffixed n] = archiveShape (n + 1 - 1)
        have : n + 1 - 1 = (n - 1) + 1 := by omega
        rw [this, archiveShape, List.range'_concat]
        have h1n : 1 + 1 * (n - 1) = n := by omega
        rw [h1n]
        simp
      · have hn0 : n = 0 := by omega
        subst hn0
        rfl

/-- Claim C6: presenting the same base filename `n ≥ 1` times to the
archive-path resolver, each prior result materialized before the next
call, yields exactly the unmodified base name followed by the names
suffixed `_1`, ..., `_(n-1)`, all pairwise distinct; and for any archive
directory contents whatsoever the resolved destination is never a name
that already exists, so no existing file is silently overwritten. -/
theorem C6_naming_rule (n : ℕ) (hn : 1 ≤ n) :
    archiveSeq n = DestName.plain :: (List.range' 1 (n - 1)).map DestName.suffixed ∧
    (archiveSeq n).Nodup ∧
    (∀ dir : List DestName, resolveDest dir ∉ dir) := by
  have hshape := archiveSeq_eq_shape n hn
  refine ⟨hshape, ?_, resolveDest_not_mem⟩
  rw [hshape, archiveShape]
  refine List.Nodup.cons ?_ ?_
  · simp
  · refine List.Nodup.map ?_ (List.nodup_range' 1 (n - 1))
    intro x y hxy
    injection hxy

/-- Witness for C6 at `n = 3`: the three resolved destinations are the
plain base name, then `_1`, then `_2`, pairwise distinct. -/
theorem C6_witness :
    archiveSeq 3 = [DestName.plain, DestName.suffixed 1, DestName.suffixed 2] ∧
    (archiveSeq 3).Nodup := by
  have h := C6_naming_rule 3 (by norm_num)
  exact ⟨by rw [h.1]; rfl, h.2.1⟩

/-- Claim C7: a directory-listing failure makes the iteration a logged
retry of the whole poll (first conjunct); a successful listing always
completes the iteration with a per-file event trace computed
independently for each candidate, so no per-file error can terminate the
watcher loop (second conjunct); a stat failure drops exactly that entry
and leaves the rest of the pipeline unchanged (third conjunct); a
claim-probe OS error other than locked/vanished merely skips that file
(fourth conjunct); and a move failure merely leaves that file in place
(fifth conjunct). -/
theorem C7_error_isolation :
    pollIteration ListObs.err = PollStep.retryPoll ∧
    (∀ entries : List FileObs,
      pollIteration (ListObs.ok entries) =
        PollStep.done ((image_files entries).map (fun f => (f.path, processFile f)))) ∧
    (∀ (pre post : List FileObs) (bad : FileObs), bad.statOk = false →
      image_files (pre ++ bad :: post) = image_files (pre ++ post)) ∧
    (∀ f : FileObs, f.claim = ClaimOutcome.osError →
      processFile f = [FileEvent.skippedOsError]) ∧
    (∀ f : FileObs, f.claim = ClaimOutcome.available → f.move = MoveOutcome.fail →
      processFile f = [FileEvent.moveFailedLeftInPlace]) := by
  refine ⟨rfl, fun entries => rfl, ?_, ?_, ?_⟩
  · intro pre post bad hbad
    have hfwm : files_with_mtime (pre ++ bad :: post) = files_with_mtime (pre ++ post) := by
      simp [files_with_mtime, List.filter_append, List.filter_cons, hbad]
    rw [image_files, image_files, sorted_files, sorted_files, hfwm]
  · intro f hf
    simp [processFile, claimProbe, hf]
  · intro f hf hm
    simp [processFile, claimProbe, moveStep, hf, hm]

/-- Witness for C7 at concrete inputs: a stat-failed entry contributes
nothing to the candidate list, and an available file whose move fails
produces only the left-in-place event. -/
theorem C7_witness :
    image_files [c7badStat] = image_files [] ∧
    processFile c7moveFail = [FileEvent.moveFailedLeftInPlace] :=
  ⟨C7_error_isolation.2.2.1 [] [] c7badStat rfl,
   C7_error_isolation.2.2.2.2 c7moveFail rfl rfl⟩

/-- Claim C8: a missing path argument exits with status 1 after the
usage message on standard error (first conjunct); a path that does not
exist exits with status 1 (second conjunct); a path that is neither an
existing file nor a directory exits with status 1 (third conjunct); and
an interrupt received during the processing loop exits with status 0
(fourth conjunct). -/
theorem C8_exit_codes :
    (∀ (args : List String) (env : Env), args.length < 2 →
      mainRun args env = MainOutcome.exited 1 true) ∧
    (∀ (args : List String) (env : Env), 2 ≤ args.length → env.pathExists = false →
      mainRun args env = MainOutcome.exited 1 false) ∧
    (∀ (args : List String) (env : Env), 2 ≤ args.length →
      env.isDir = false → env.isFile = false →
      mainRun args env = MainOutcome.exited 1 false) ∧
    (∀ (args : List String) (env : Env), 2 ≤ args.length →
      env.pathExists = true → env.absOk = true →
      env.mkdirsOk = true → env.connectOk = true → env.interrupted = true →
      (env.isDir = true ∨ env.isFile = true) →
      mainRun args env =
        MainOutcome.interruptExit (if env.isDir then env.absPath else env.parentDir) 0) := by
  refine ⟨?_, ?_, ?_, ?_⟩
  · intro args env h
    rw [mainRun, if_pos h]
  · intro args env h2 hp
    have hlt : ¬ args.length < 2 := by omega
    simp [mainRun, hlt, hp]
  · intro args env h2 hd hf
    have hlt : ¬ args.length < 2 := by omega
    cases hpe : env.pathExists <;> cases hao : env.absOk <;>
      simp [mainRun, hlt, hpe, hao, hd, hf]
  · intro args env h2 hpe hao hmk hco hi hdf
    have hlt : ¬ args.length < 2 := by omega
    rcases hdf with hd | hf
    · simp [mainRun, mainLoopPhase, hlt, hpe, hao, hd, hmk, hco, hi]
    · cases hd : env.isDir <;>
        simp [mainRun, mainLoopPhase, hlt, hpe, hao, hd, hf, hmk, hco, hi]

/-- Witness for C8 at a concrete input: an interrupted run over an
existing directory argument exits with status 0. -/
theorem C8_witness :
    mainRun ["prog", "C:/watch"] c8envInt = MainOutcome.interruptExit "C:/watch" 0 := by
  have h := C8_exit_codes.2.2.2 ["prog", "C:/watch"] c8envInt (by decide)
    rfl rfl rfl rfl rfl (Or.inl rfl)
  simpa using h

/-- Claim C9: a directory entry is selected as a candidate exactly when
it is a regular file, its stat succeeded, and its lower-cased path ends
with one of the seven allow-listed extensions (first conjunct); a path
ending in `.txt` such as `notes.txt` fails the filter (second conjunct);
and every per-file event of a poll belongs to a selected candidate, so a
file with an unrecognized extension is never moved out of the watch
directory (third conjunct). -/
theorem C9_extension_filter :
    (∀ (entries : List FileObs) (f : FileObs),
      f ∈ image_files entries ↔
        f ∈ entries ∧ f.isFile = true ∧ f.statOk = true ∧ isImagePath f.path = true) ∧
    isImagePath "C:/watch/notes.txt" = false ∧
    (∀ (entries : List FileObs) (p : String) (evs : List FileEvent),
      (p, evs) ∈ (image_files entries).map (fun f => (f.path, processFile f)) →
      ∃ f : FileObs, f ∈ entries ∧ f.path = p ∧ isImagePath p = true) := by
  have hmem : ∀ (entries : List FileObs) (f : FileObs),
      f ∈ image_files entries ↔
        f ∈ entries ∧ f.isFile = true ∧ f.statOk = true ∧ isImagePath f.path = true := by
    intro entries f
    rw [image_files, List.mem_filter]
    constructor
    · intro ⟨hmem1, himg⟩
      have hmem2 : f ∈ files_with_mtime entries := by
        apply (List.mergeSort_perm (files_with_mtime entries) mtimeLe).mem_iff.mp
        rw [← sorted_files]
        exact hmem1
      rw [files_with_mtime, List.mem_filter, Bool.and_eq_true] at hmem2
      exact ⟨hmem2.1, hmem2.2.1, hmem2.2.2, himg⟩
    · intro ⟨hent, hfile, hstat, himg⟩
      refine ⟨?_, himg⟩
      rw [sorted_files]
      apply (List.mergeSort_perm (files_with_mtime entries) mtimeLe).mem_iff.mpr
      rw [files_with_mtime, List.mem_filter]
      exact ⟨hent, by rw [hfile, hstat]; rfl⟩
  refine ⟨hmem, by decide, ?_⟩
  intro entries p evs hpe
  rw [List.mem_map] at hpe
  obtain ⟨f, hf, heq⟩ := hpe
  injection heq with hpath hevs
  obtain ⟨hent, _, _, himg⟩ := (hmem entries f).mp hf
  subst hpath
  exact ⟨f, hent, rfl, himg⟩

/-- Witness for C9 at a concrete input: a file with an upper-case
`.TIFF` extension is selected as a candidate. -/
theorem C9_witness : c9img ∈ image_files [c9img] :=
  (C9_extension_filter.1 [c9img] c9img).mpr (by decide)

/-- Claim C10: when the argument path resolves to an existing directory
it is watched itself; when it resolves to an existing regular file, the
watched directory is the file's parent directory, not the file path. -/
theorem C10_watch_dir (args : List String) (env : Env)
    (h2 : 2 ≤ args.length) (hpe : env.pathExists = true) (hao : env.absOk = true)
    (hmk : env.mkdirsOk = true) (hco : env.connectOk = true)
    (hni : env.interrupted = false) :
    (env.isDir = true → mainRun args env = MainOutcome.loopsForever env.absPath) ∧
    (env.isDir = false → env.isFile = true →
      mainRun args env = MainOutcome.loopsForever env.parentDir) := by
  have hlt : ¬ args.length < 2 := by omega
  constructor
  · intro hd
    simp [mainRun, mainLoopPhase, hlt, hpe, hao, hd, hmk, hco, hni]
  · intro hd hf
    simp [mainRun, mainLoopPhase, hlt, hpe, hao, hd, hf, hmk, hco, hni]

/-- Witness for C10 at a concrete input: a regular-file argument makes
the watcher run over the file's parent directory. -/
theorem C10_witness :
    mainRun ["prog", "C:/watch/a.jpg"] c10env = MainOutcome.loopsForever "C:/watch" :=
  (C10_watch_dir ["prog", "C:/watch/a.jpg"] c10env (by decide)
    rfl rfl rfl rfl rfl).2 rfl rfl

/-- Claim C1 evaluated on the code at a failing input (one unlocked image
file whose move succeeds): the loop body hands the available file
straight to the move into `printed/`.  Its event trace is exactly the
move and contains no byte read, no Transformer invocation, no printer
submission, and no error-archive move: the hand-off pipeline the claim
describes is absent from the loop (`crop_and_resize_image` has no caller
in `main` and the printer handle is never used inside the loop), so the
file reaches `printed/` independently of any print outcome. -/
theorem C1_move_without_handoff :
    pollIteration (ListObs.ok [c1Obs]) =
      PollStep.done [("C:/watch/a.jpg", [FileEvent.movedPrinted])] ∧
    processFile c1Obs = [FileEvent.movedPrinted] ∧
    FileEvent.readBytes ∉ processFile c1Obs ∧
    FileEvent.transformed ∉ processFile c1Obs ∧
    FileEvent.sentToPrinter ∉ processFile c1Obs ∧
    FileEvent.movedError ∉ processFile c1Obs := by
  have h1 : files_with_mtime [c1Obs] = [c1Obs] := by decide
  have h2 : sorted_files [c1Obs] = [c1Obs] := by
    rw [sorted_files, h1, List.mergeSort_singleton]
  have h3 : image_files [c1Obs] = [c1Obs] := by
    rw [image_files, h2]
    decide
  refine ⟨?_, by decide, by decide, by decide, by decide, by decide⟩
  show PollStep.done ((image_files [c1Obs]).map (fun f => (f.path, processFile f))) =
    PollStep.done [("C:/watch/a.jpg", [FileEvent.movedPrinted])]
  rw [h3]
  decide

end Instax
